import Mathlib

/-!
Verification of the resilient OData access layer of `bc-odata-mcp`
(`internal/bc`: `auth.go` and `client.go`).

Strings are modelled as `List Char` (Go strings are byte slices; all the
string surgery done by the client uses ASCII separators, so a character-level
model is faithful).  Network I/O is modelled by oracles scripted by request
index, exactly like the repository's own `httptest` mock servers, which
respond based on a request counter.  Ghost fields (request traces, wait
events, exchange/invalidate counters) record the observable behaviour the
specification talks about; they are not part of the Go structs.

Time-based behaviour that no claim depends on (the 200ms inter-page delay,
context cancellation of backoff sleeps) is not modelled.
-/

/-- Character list of a string literal. -/
def chars (s : String) : List Char := s.toList

/-- Go `strings.HasPrefix`. -/
def startsWith (s pat : List Char) : Bool := pat.isPrefixOf s

/-- Suffix of `s` strictly after the first occurrence of `pat`
(Go `s[strings.Index(s, pat)+len(pat):]`); `none` when `pat` does not occur. -/
def afterFirst (pat : List Char) : List Char → Option (List Char)
  | [] => if pat.isPrefixOf ([] : List Char) then some [] else none
  | c :: t =>
    if pat.isPrefixOf (c :: t) then some ((c :: t).drop pat.length)
    else afterFirst pat t

/-- Go `strings.Contains`. -/
def containsSub (s pat : List Char) : Bool := (afterFirst pat s).isSome

/-- Go `unicode.IsSpace` restricted to ASCII (the only characters that can
appear in the ASCII query strings the client manipulates). -/
def isSpaceGo (c : Char) : Bool :=
  c = ' ' || c = '\t' || c = '\n' || c = '\r' || c = '\x0b' || c = '\x0c'

/-- Go `strings.TrimSpace`. -/
def trimSpace (s : List Char) : List Char :=
  ((s.dropWhile isSpaceGo).reverse.dropWhile isSpaceGo).reverse

/-- Value of a digit string (most significant first). -/
def digitsVal (ds : List Char) : Nat := ds.foldl (fun a c => a * 10 + (c.toNat - 48)) 0

/-- Go `strconv.ParseInt(s, 10, 64)` (also the semantics of `strconv.Atoi`
on a 64-bit platform): optional sign, one or more decimal digits, no other
characters, result within `int64` range. -/
def parseInt64 (s : List Char) : Option Int :=
  let signDigits : Bool × List Char :=
    match s with
    | c :: t => if c = '+' then (false, t) else if c = '-' then (true, t) else (false, s)
    | [] => (false, [])
  let neg := signDigits.1
  let ds := signDigits.2
  if ds = [] then none
  else if ds.all (fun c => c.isDigit) then
    let v := digitsVal ds
    if neg then
      if v ≤ 2 ^ 63 then some (-(v : Int)) else none
    else
      if v ≤ 2 ^ 63 - 1 then some (v : Int) else none
  else none

/-- Decimal digit character. -/
def digitChar (d : Nat) : Char :=
  match d with
  | 0 => '0' | 1 => '1' | 2 => '2' | 3 => '3' | 4 => '4'
  | 5 => '5' | 6 => '6' | 7 => '7' | 8 => '8' | _ => '9'

/-- Digits accumulator for `natToChars`; the fuel argument only bounds the
recursion depth (any fuel above the number of digits gives the same
result). -/
def natToCharsGo : Nat → Nat → List Char → List Char
  | 0, _, acc => acc
  | fuel + 1, n, acc =>
    if n < 10 then digitChar n :: acc
    else natToCharsGo fuel (n / 10) (digitChar (n % 10) :: acc)

/-- Decimal representation of a natural number
(Go `fmt.Sprintf("%d", n)` for nonnegative `n`). -/
def natToChars (n : Nat) : List Char := natToCharsGo (n + 1) n []

/-! ## Pagination engine (`client.go`, `GetPaginated` / `Query`)

The per-page transport (`c.Get`, i.e. `GetWithRetry`, followed by reading and
JSON-decoding the body) is abstracted as an oracle
`fetchPage : Nat → List Char → Option (ODataResp α)` taking the request index
and the endpoint actually requested; `none` collapses the transport's error
modes (HTTP failure, body read failure, JSON parse failure), each of which
aborts pagination.  The retry/token layer inside `c.Get` is modelled
separately below. -/

/-- `ODataResponse` of `client.go`: a page of records plus an optional
continuation link (`[]` encodes the absent / empty `@odata.nextLink`,
exactly as the Go code checks `odataResp.NextLink != ""`). -/
structure ODataResp (α : Type) where
  value : List α
  nextLink : List Char
deriving DecidableEq

/-- Outcome of a `GetPaginated` run.  `err` collapses the error returns of
the Go function (failed page fetch, bad next link); `outOfFuel` is an
artifact of the fuel-based encoding of the unbounded `for` loop. -/
inductive PagOutcome (α : Type) where
  | ok (results : List α)
  | err
  | outOfFuel
deriving DecidableEq

/-- The filter of `client.go` lines 479-491: keep a query parameter iff it is
not a `$skip=` parameter and starts with `$filter=`, `$select=`, `$orderby=`
or `$top=`. -/
def preserveP (p : List Char) : Bool :=
  !(startsWith p (chars "$skip=")) &&
    (startsWith p (chars "$filter=") || startsWith p (chars "$select=") ||
      startsWith p (chars "$orderby=") || startsWith p (chars "$top="))

/-- Query-parameter list of an endpoint as `GetPaginated` reads it
(lines 475-478): the text between the first and second `?`, split on `&`;
no parameters at all when the endpoint has no `?`. -/
def queryList (e : List Char) : List (List Char) :=
  if containsSub e (chars "?") then ((e.splitOn '?').getD 1 []).splitOn '&'
  else []

/-- The parameters of `e` preserved across a manual `$skip` rewrite. -/
def filteredParams (e : List Char) : List (List Char) :=
  (queryList e).filter preserveP

/-- The freshly computed `$skip` parameter (`fmt.Sprintf("$skip=%d", n)`). -/
def skipLit (n : Nat) : List Char := chars "$skip=" ++ natToChars n

/-- The base endpoint used by the `$skip` rewrite (lines 467-470): the text
before the first `?`, or the whole endpoint when there is no `?`. -/
def baseOf (currentEndpoint : List Char) : List Char :=
  if containsSub currentEndpoint (chars "?") then (currentEndpoint.splitOn '?').headI
  else currentEndpoint

/-- The `$skip` rewrite of `GetPaginated` (lines 466-503): keep only the
`$filter=`/`$select=`/`$orderby=`/`$top=` parameters of the current endpoint,
drop any existing `$skip`, and append the new `$skip`.  (The final `else`
branch is dead in Go as well, since the `$skip` parameter was just appended.) -/
def addSkip (currentEndpoint : List Char) (skipCount : Nat) : List Char :=
  let queryParams := filteredParams currentEndpoint ++ [skipLit skipCount]
  if 0 < queryParams.length then
    baseOf currentEndpoint ++ '?' :: List.intercalate (chars "&") queryParams
  else baseOf currentEndpoint ++ chars "?$skip=" ++ natToChars skipCount

/-- The `$top` extraction of `GetPaginated` (lines 430-448): the text after
the first `$top=`, up to the next `&`, trimmed, parsed with `strconv.Atoi`;
`none` (leaving `maxResults = -1`) when `$top=` is absent or unparseable. -/
def parseTop (endpoint : List Char) : Option Int :=
  match afterFirst (chars "$top=") endpoint with
  | none => none
  | some topPart => parseInt64 (trimSpace ((topPart.splitOn '&').headI))

/-- The `for` loop of `GetPaginated` (lines 453-645).  One fuel unit per
iteration; `rewriteNext` models lines 577-588 (parsing the continuation link
and stripping the base URL), which no claim exercises — every theorem below
either quantifies over it or never receives a continuation link.  The ghost
`trace` records the endpoint of every page request, and its length is the
request index passed to the oracle. -/
def getPaginatedLoop {α : Type} (fetchPage : Nat → List Char → Option (ODataResp α))
    (rewriteNext : List Char → Option (List Char)) (maxResults : Int) :
    Nat → List α → List Char → Nat → Nat → List (List Char) →
      PagOutcome α × List (List Char)
  | 0, _, _, _, _, trace => (.outOfFuel, trace)
  | fuel + 1, allResults, currentEndpoint, skipCount, pageNum, trace =>
    -- lines 454-463: $top cap reached before issuing the next request
    if maxResults > 0 ∧ (allResults.length : Int) ≥ maxResults then
      (.ok (allResults.take maxResults.toNat), trace)
    else
      -- lines 466-503: manual $skip rewrite
      let ce := if 0 < skipCount ∧ 0 < allResults.length
        then addSkip currentEndpoint skipCount else currentEndpoint
      match fetchPage trace.length ce with
      | none => (.err, trace ++ [ce])          -- lines 520-543: failed fetch/parse
      | some resp =>
        let acc := allResults ++ resp.value    -- line 546
        let trace' := trace ++ [ce]
        -- lines 555-564: $top cap reached after appending this page
        if maxResults > 0 ∧ (acc.length : Int) ≥ maxResults then
          (.ok (acc.take maxResults.toNat), trace')
        else if resp.nextLink ≠ [] then
          -- lines 567-589 (the inner cap re-check is unreachable, as in Go)
          if maxResults > 0 ∧ (acc.length : Int) ≥ maxResults then
            (.ok (acc.take maxResults.toNat), trace')
          else
            match rewriteNext resp.nextLink with
            | none => (.err, trace')
            | some nextEp =>
              -- line 641: safety check after the branch
              if resp.value.length = 0 then (.ok acc, trace')
              else getPaginatedLoop fetchPage rewriteNext maxResults fuel
                acc nextEp 0 (pageNum + 1) trace'
        else
          -- line 595: empty page always terminates
          if resp.value.length = 0 then (.ok acc, trace')
          -- lines 601-608: cap re-check (unreachable, as in Go)
          else if maxResults > 0 ∧ (acc.length : Int) ≥ maxResults then
            (.ok (acc.take maxResults.toNat), trace')
          -- lines 614-628: short-page heuristic
          else if resp.value.length < 20 ∧ 0 < skipCount then (.ok acc, trace')
          -- lines 630-637: continue manual pagination
          else getPaginatedLoop fetchPage rewriteNext maxResults fuel
            acc ce (skipCount + resp.value.length) (pageNum + 1) trace'

/-- `GetPaginated` (lines 417-653): extract the `$top` cap, then run the
pagination loop from an empty accumulator, `skipCount = 0`, `pageNum = 1`. -/
def GetPaginatedM {α : Type} (fetchPage : Nat → List Char → Option (ODataResp α))
    (rewriteNext : List Char → Option (List Char)) (endpoint : List Char)
    (fuel : Nat) : PagOutcome α × List (List Char) :=
  let maxResults : Int := match parseTop endpoint with | some t => t | none => -1
  getPaginatedLoop fetchPage rewriteNext maxResults fuel [] endpoint 0 1 []

/-- `Query` (lines 656-678): with pagination, defer to `GetPaginated`;
otherwise issue a single request and return its `value` field. -/
def QueryM {α : Type} (fetchPage : Nat → List Char → Option (ODataResp α))
    (rewriteNext : List Char → Option (List Char)) (endpoint : List Char)
    (fuel : Nat) (includePagination : Bool) : PagOutcome α × List (List Char) :=
  if includePagination then GetPaginatedM fetchPage rewriteNext endpoint fuel
  else
    match fetchPage 0 endpoint with
    | none => (.err, [endpoint])
    | some resp => (.ok resp.value, [endpoint])

/-! ## Token provider (`auth.go`)

Time is an explicit parameter (seconds); it does not advance during a call.
The token exchange (`fetchToken`, lines 119-168) is an oracle indexed by the
number of exchanges performed so far: `none` collapses its error modes
(network failure, non-200 status, undecodable body).  `fetchCount` and
`invCount` are ghost counters of network token exchanges and of
`InvalidateToken` calls; they are not fields of the Go struct. -/

/-- `TokenResponse` of `auth.go`. -/
structure TokenResp where
  accessToken : List Char
  tokenType : List Char
  expiresIn : Int
  scope : List Char
deriving DecidableEq

/-- Token-cache state of `Auth`: the cached bearer token (`[]` encodes the
empty string, meaning no token) and its absolute expiry (seconds; `0` encodes
the zero `time.Time`), plus the two ghost counters. -/
structure AuthSt where
  token : List Char
  tokenExpiry : Int
  fetchCount : Nat
  invCount : Nat
deriving DecidableEq

/-- `refreshToken` (lines 79-104): under the exclusive lock, re-check the
5-minute (300 s) safety margin, then perform the exchange; on failure return
the error without touching the cached token or expiry; on success cache the
token and `now + expires_in`. -/
def refreshTokenM (fetch : Nat → Option TokenResp) (now : Int) (st : AuthSt) :
    Option (List Char) × AuthSt :=
  if st.token ≠ [] ∧ now < st.tokenExpiry - 300 then (some st.token, st)
  else
    match fetch st.fetchCount with
    | none => (none, { st with fetchCount := st.fetchCount + 1 })
    | some tr =>
      (some tr.accessToken,
        { token := tr.accessToken, tokenExpiry := now + tr.expiresIn,
          fetchCount := st.fetchCount + 1, invCount := st.invCount })

/-- `GetToken` (lines 62-76): fast path under the read lock — return the
cached token if non-empty and not within the safety margin of expiry —
otherwise refresh. -/
def GetTokenM (fetch : Nat → Option TokenResp) (now : Int) (st : AuthSt) :
    Option (List Char) × AuthSt :=
  if st.token ≠ [] ∧ now < st.tokenExpiry - 300 then (some st.token, st)
  else refreshTokenM fetch now st

/-- `InvalidateToken` (lines 107-116): clear the token and expiry when a
token is cached; a call on an empty cache changes nothing. -/
def InvalidateTokenM (st : AuthSt) : AuthSt :=
  let st' := { st with invCount := st.invCount + 1 }
  if st'.token ≠ [] then { st' with token := [], tokenExpiry := 0 } else st'

/-! ## Constructors and timeouts (`NewAuth`, `NewClient`) -/

/-- `Config` of `auth.go`. -/
structure Config where
  GrantType : List Char
  ClientID : List Char
  ClientSecret : List Char
  ScopeAPI : List Char
  TokenURL : List Char
  ContentType : List Char
  BasePath : List Char
  TenantID : List Char
  Environment : List Char
  Company : List Char
  APITimeout : Int
deriving DecidableEq

/-- Wrap an integer to Go's two's-complement `int64`. -/
def wrap64 (x : Int) : Int := (x + 2 ^ 63) % 2 ^ 64 - 2 ^ 63

/-- The `http.Client` timeout (a Go `time.Duration`, nanoseconds) built by
both constructors: `time.Duration(timeout) * time.Second` where `timeout`
defaults to 90 only when the configured value is exactly 0 (lines 49-52 and
202-205). -/
def clientTimeout (cfg : Config) : Int :=
  let timeout : Int := if cfg.APITimeout = 0 then 90 else cfg.APITimeout
  wrap64 (timeout * 1000000000)

/-- `Auth` as built by `NewAuth` (lines 48-59), restricted to the fields the
claims observe: the configuration and the HTTP client timeout. -/
structure AuthM where
  config : Config
  httpTimeout : Int
deriving DecidableEq

/-- `NewAuth` (lines 48-59). -/
def NewAuth (cfg : Config) : AuthM := { config := cfg, httpTimeout := clientTimeout cfg }

/-- `Client` as built by `NewClient` (lines 201-214), restricted to the
fields the claims observe. -/
structure ClientM where
  config : Config
  httpTimeout : Int
  baseURL : List Char
deriving DecidableEq

/-- `NewClient` (lines 201-214). -/
def NewClient (cfg : Config) : ClientM :=
  { config := cfg, httpTimeout := clientTimeout cfg, baseURL := cfg.BasePath }

/-! ## Retry-After parsing and the 429 backoff (`GetWithRetry`, lines 335-377)

`time.ParseDuration` and `strconv.ParseInt` are Go standard library
functions; they are modelled here on the fragment the client can reach.
Fractional durations (a `.` inside the number) are not modelled: the model
rejects them, and every theorem below quantifies only over fraction-free
headers. -/

/-- The unit table of `time.ParseDuration`, in nanoseconds. -/
def durUnit (u : List Char) : Option Nat :=
  if u = chars "ns" then some 1
  else if u = chars "us" then some 1000
  else if u = chars "µs" then some 1000
  else if u = chars "μs" then some 1000
  else if u = chars "ms" then some 1000000
  else if u = chars "s" then some 1000000000
  else if u = chars "m" then some 60000000000
  else if u = chars "h" then some 3600000000000
  else none

/-- Go `leadingInt`: consume leading decimal digits into `x`, erroring on
`int64` overflow exactly as Go does (pre-check `x > (2^63-1)/10`, post-check
on the new value). -/
def leadingIntAux : List Char → Nat → Option (Nat × List Char)
  | [], x => some (x, [])
  | c :: t, x =>
    if c.isDigit then
      if x > (2 ^ 63 - 1) / 10 then none
      else
        let x' := x * 10 + (c.toNat - 48)
        if x' > 2 ^ 63 - 1 then none else leadingIntAux t x'
    else some (x, c :: t)

/-- The main loop of `time.ParseDuration`: repeatedly consume digits and a
unit, accumulating nanoseconds.  Fuel decreases once per component; each
component consumes at least two characters, so `length + 1` fuel suffices. -/
def parseDurLoop : Nat → List Char → Nat → Option Nat
  | 0, _, _ => none
  | fuel + 1, s, d =>
    match s with
    | [] => some d
    | c :: _ =>
      if ¬(c = '.' ∨ c.isDigit) then none
      else
        match leadingIntAux s 0 with
        | none => none
        | some (v, rest) =>
          if rest ≠ [] ∧ rest.headI = '.' then none  -- fractional part: not modelled
          else if rest.length = s.length then none   -- no digits before the unit
          else
            let u := rest.takeWhile (fun ch => ¬(ch = '.' ∨ ch.isDigit))
            let srem := rest.dropWhile (fun ch => ¬(ch = '.' ∨ ch.isDigit))
            if u = [] then none                      -- missing unit
            else
              match durUnit u with
              | none => none                         -- unknown unit
              | some unit =>
                if v > 2 ^ 63 / unit then none       -- overflow
                else
                  let d' := d + v * unit
                  if d' > 2 ^ 63 then none else parseDurLoop fuel srem d'

/-- Go `time.ParseDuration` (fraction-free fragment): optional sign, the
special case `"0"`, then duration components; nanoseconds as `Int`. -/
def parseGoDuration (s : List Char) : Option Int :=
  let signRest : Bool × List Char :=
    match s with
    | c :: t => if c = '-' then (true, t) else if c = '+' then (false, t) else (false, s)
    | [] => (false, [])
  let neg := signRest.1
  let s1 := signRest.2
  if s1 = chars "0" then some 0
  else if s1 = [] then none
  else
    match parseDurLoop (s1.length + 1) s1 0 with
    | none => none
    | some d =>
      if neg then some (-(d : Int))
      else if d > 2 ^ 63 - 1 then none else some (d : Int)

/-- The 429 wait computation of `GetWithRetry` (lines 335-356), in
nanoseconds: with a non-empty `Retry-After` header, first try
`time.ParseDuration(retryAfter + "s")`, then `strconv.ParseInt` as whole
seconds, else the linear fallback `5s * (attempt+1)`; with no header, the
exponential backoff `5s * 2^attempt`.  `Duration` arithmetic wraps as
`int64`. -/
def computeBackoff429 (retryAfter : List Char) (attempt : Nat) : Int :=
  if retryAfter ≠ [] then
    match parseGoDuration (retryAfter ++ chars "s") with
    | some d => d
    | none =>
      match parseInt64 retryAfter with
      | some n => wrap64 (n * 1000000000)
      | none => wrap64 (((attempt : Int) + 1) * 5 * 1000000000)
  else wrap64 ((if 64 ≤ attempt then (0 : Int) else 2 ^ attempt) * 5 * 1000000000)

/-! ## The retry loop (`GetWithRetry`, lines 222-414)

The HTTP transport is an oracle indexed by the number of requests issued so
far (`none` is a transport-level error, which Go treats as transient).  The
ghost `events` trace records each issued request (endpoint and bearer token)
and each wait, in order. -/

/-- Response as classified by `GetWithRetry`: the status code and the
`Retry-After` header (`[]` encodes an absent header, exactly as
`resp.Header.Get` returns `""`). -/
structure HttpResp where
  status : Nat
  retryAfter : List Char
deriving DecidableEq

/-- Observable events of a `GetWithRetry` run. -/
inductive REvent where
  | req (endpoint bearer : List Char)
  | wait429 (d : Int)
  | waitRetry (d : Int)
deriving DecidableEq

/-- State threaded through the retry loop: the token cache, the ghost count
of HTTP requests issued (the oracle index), and the ghost event trace. -/
structure RetrySt where
  auth : AuthSt
  reqCount : Nat
  events : List REvent
deriving DecidableEq

/-- The body of `GetWithRetry`, one recursive step per attempt
(`rem` = remaining attempts).  `none` as first component collapses the
terminal error returns (token failure, client 4xx, max retries exceeded). -/
def getWithRetryAux (fetch : Nat → Option TokenResp) (http : Nat → Option HttpResp)
    (now : Int) (endpoint : List Char) :
    Nat → Nat → RetrySt → Option HttpResp × RetrySt
  | _, 0, st => (none, st)                           -- lines 409-413: retries exhausted
  | attempt, rem + 1, st =>
    -- lines 232-247: exponential backoff 2s * 2^(attempt-1) before retries
    let st1 := if 0 < attempt then
        { st with events := st.events ++
            [.waitRetry (wrap64 ((if 64 ≤ attempt - 1 then (0 : Int) else 2 ^ (attempt - 1)) *
              2 * 1000000000))] }
      else st
    match GetTokenM fetch now st1.auth with
    | (none, a1) => (none, { st1 with auth := a1 })  -- lines 253-257: fail fast
    | (some token, a1) =>
      let st2 := { st1 with auth := a1 }
      -- lines 277-287: issue the request with `Authorization: Bearer <token>`
      let st3 := { st2 with reqCount := st2.reqCount + 1,
                            events := st2.events ++ [.req endpoint token] }
      match http st2.reqCount with
      | none => getWithRetryAux fetch http now endpoint (attempt + 1) rem st3
      | some resp =>
        -- lines 297-332: 401 — invalidate, refresh, replay within the attempt
        match (if resp.status = 401 then
                match GetTokenM fetch now (InvalidateTokenM st3.auth) with
                | (none, a2) => (none, { st3 with auth := a2 })
                | (some tok2, a2) =>
                  let st4 : RetrySt :=
                    ⟨a2, st3.reqCount + 1, st3.events ++ [.req endpoint tok2]⟩
                  match http st3.reqCount with
                  | none => (none, st4)
                  | some r2 => (some r2, st4)
              else (some resp, st3) : Option HttpResp × RetrySt) with
        | (none, st') => getWithRetryAux fetch http now endpoint (attempt + 1) rem st'
        | (some r, st') =>
          if r.status = 429 then                     -- lines 335-377
            getWithRetryAux fetch http now endpoint (attempt + 1) rem
              { st' with events := st'.events ++
                  [.wait429 (computeBackoff429 r.retryAfter attempt)] }
          else if 500 ≤ r.status then                -- lines 380-388
            getWithRetryAux fetch http now endpoint (attempt + 1) rem st'
          else if 200 ≤ r.status ∧ r.status < 300 then (some r, st')  -- lines 391-394
          else (none, st')                           -- lines 397-406: terminal 4xx

/-- `GetWithRetry` (lines 222-414). -/
def GetWithRetryM (fetch : Nat → Option TokenResp) (http : Nat → Option HttpResp)
    (now : Int) (endpoint : List Char) (maxRetries : Nat) (st : RetrySt) :
    Option HttpResp × RetrySt :=
  getWithRetryAux fetch http now endpoint 0 maxRetries st

/-- `Get` (lines 217-219): `GetWithRetry` with 5 attempts. -/
def GetM (fetch : Nat → Option TokenResp) (http : Nat → Option HttpResp)
    (now : Int) (endpoint : List Char) (st : RetrySt) : Option HttpResp × RetrySt :=
  GetWithRetryM fetch http now endpoint 5 st

/-! ## Helper lemmas about the query-string surgery -/

lemma headI_mem_of_ne_nil {α : Type} [Inhabited α] {l : List α} (h : l ≠ []) :
    l.headI ∈ l := by
  cases l with
  | nil => exact absurd rfl h
  | cons a t => exact List.mem_cons_self a t

lemma getD_one_mem_or {α : Type} (l : List α) (d : α) :
    l.getD 1 d ∈ l ∨ l.getD 1 d = d := by
  by_cases h : 1 < l.length
  · left
    rw [List.getD_eq_getElem l d h]
    exact List.getElem_mem h
  · right
    exact List.getD_eq_default l d (le_of_not_lt h)

/-- Every element of a `splitOnP` component comes from the original list and
does not satisfy the splitting predicate. -/
lemma splitOnP_mem_and_not {α : Type} (p : α → Bool) (xs : List α) :
    ∀ l ∈ xs.splitOnP p, ∀ a ∈ l, a ∈ xs ∧ ¬ p a := by
  induction xs with
  | nil =>
    intro l hl a ha
    rw [List.splitOnP_nil, List.mem_singleton] at hl
    subst hl
    exact absurd ha (List.not_mem_nil a)
  | cons x t ih =>
    intro l hl a ha
    rw [List.splitOnP_cons] at hl
    by_cases hx : p x
    · rw [if_pos hx] at hl
      rcases List.mem_cons.mp hl with h1 | h1
      · subst h1; exact absurd ha (List.not_mem_nil a)
      · obtain ⟨hmem, hnp⟩ := ih l h1 a ha
        exact ⟨List.mem_cons_of_mem _ hmem, hnp⟩
    · rw [if_neg hx] at hl
      obtain ⟨h0, t0, heq⟩ := List.exists_cons_of_ne_nil (List.splitOnP_ne_nil p t)
      rw [heq, List.modifyHead_cons] at hl
      rcases List.mem_cons.mp hl with h1 | h1
      · subst h1
        rcases List.mem_cons.mp ha with h2 | h2
        · subst h2; exact ⟨List.mem_cons_self a t, hx⟩
        · have := ih h0 (by rw [heq]; exact List.mem_cons_self _ _) a h2
          exact ⟨List.mem_cons_of_mem _ this.1, this.2⟩
      · have := ih l (by rw [heq]; exact List.mem_cons_of_mem _ h1) a ha
        exact ⟨List.mem_cons_of_mem _ this.1, this.2⟩

lemma splitOn_mem_and_ne {xs l : List Char} {c : Char} (hl : l ∈ xs.splitOn c) :
    ∀ a ∈ l, a ∈ xs ∧ a ≠ c := by
  intro a ha
  have h := splitOnP_mem_and_not (fun b => b == c) xs l hl a ha
  simpa using h

lemma containsSub_singleton (s : List Char) (c : Char) :
    containsSub s [c] = true ↔ c ∈ s := by
  induction s with
  | nil => simp [containsSub, afterFirst, List.isPrefixOf]
  | cons a t ih =>
    by_cases h : c = a
    · subst h
      simp [containsSub, afterFirst, List.isPrefixOf]
    · have hpre : ¬([c].isPrefixOf (a :: t) = true) := by
        simp only [List.isPrefixOf, Bool.and_eq_true, beq_iff_eq]
        exact fun hc => absurd hc.1 h
      have hstep : containsSub (a :: t) [c] = containsSub t [c] := by
        simp only [containsSub, afterFirst, if_neg hpre]
      rw [hstep, ih, List.mem_cons]
      exact ⟨fun hc => Or.inr hc, fun hc => hc.resolve_left h⟩

lemma afterFirst_eq_none {s pat : List Char} (h : containsSub s pat = false) :
    afterFirst pat s = none := by
  unfold containsSub at h
  cases hx : afterFirst pat s with
  | none => rfl
  | some v => rw [hx] at h; simp at h

lemma digitChar_ne_amp_qm : ∀ d < 10, digitChar d ≠ '&' ∧ digitChar d ≠ '?' := by decide

lemma natToCharsGo_mem (fuel : Nat) :
    ∀ (n : Nat) (acc : List Char), ∀ c ∈ natToCharsGo fuel n acc,
      (∃ d, d < 10 ∧ c = digitChar d) ∨ c ∈ acc := by
  induction fuel with
  | zero => intro n acc c hc; exact Or.inr hc
  | succ f ih =>
    intro n acc c hc
    rw [natToCharsGo] at hc
    split_ifs at hc with h
    · rcases List.mem_cons.mp hc with h1 | h1
      · exact Or.inl ⟨n, h, h1⟩
      · exact Or.inr h1
    · rcases ih (n / 10) (digitChar (n % 10) :: acc) c hc with h1 | h1
      · exact Or.inl h1
      · rcases List.mem_cons.mp h1 with h2 | h2
        · exact Or.inl ⟨n % 10, Nat.mod_lt _ (by omega), h2⟩
        · exact Or.inr h2

lemma natToChars_mem (n : Nat) : ∀ c ∈ natToChars n, ∃ d, d < 10 ∧ c = digitChar d := by
  intro c hc
  rcases natToCharsGo_mem (n + 1) n [] c hc with h | h
  · exact h
  · exact absurd h (List.not_mem_nil c)

lemma skipLit_ne_amp_qm (k : Nat) : ∀ a ∈ skipLit k, a ≠ '&' ∧ a ≠ '?' := by
  intro a ha
  rcases List.mem_append.mp ha with h | h
  · revert h
    have : ∀ a ∈ chars "$skip=", a ≠ '&' ∧ a ≠ '?' := by decide
    exact this a
  · obtain ⟨d, hd, rfl⟩ := natToChars_mem k a h
    exact digitChar_ne_amp_qm d hd

lemma filteredParams_chars (e : List Char) :
    ∀ l ∈ filteredParams e, ∀ a ∈ l, a ≠ '&' ∧ a ≠ '?' := by
  intro l hl a ha
  have hql : l ∈ queryList e := List.mem_of_mem_filter hl
  rw [queryList] at hql
  split_ifs at hql with h
  · obtain ⟨hmem, hne⟩ := splitOn_mem_and_ne hql a ha
    refine ⟨hne, ?_⟩
    rcases getD_one_mem_or (e.splitOn '?') [] with h2 | h2
    · exact (splitOn_mem_and_ne h2 a hmem).2
    · rw [h2] at hmem; exact absurd hmem (List.not_mem_nil a)
  · exact absurd hql (List.not_mem_nil l)

lemma intercalate_singleton (a : List Char) : List.intercalate ['&'] [a] = a := by
  simp [List.intercalate]

lemma intercalate_cons₂ (a b : List Char) (t : List (List Char)) :
    List.intercalate ['&'] (a :: b :: t) = a ++ '&' :: List.intercalate ['&'] (b :: t) := by
  simp [List.intercalate]

lemma mem_intercalate_amp {P : List (List Char)} {a : Char}
    (h : a ∈ List.intercalate ['&'] P) : a = '&' ∨ ∃ l ∈ P, a ∈ l := by
  induction P with
  | nil => simp [List.intercalate] at h
  | cons x t ih =>
    cases t with
    | nil =>
      rw [intercalate_singleton] at h
      exact Or.inr ⟨x, List.mem_singleton_self x, h⟩
    | cons y t2 =>
      rw [intercalate_cons₂] at h
      rcases List.mem_append.mp h with h1 | h1
      · exact Or.inr ⟨x, List.mem_cons_self _ _, h1⟩
      · rcases List.mem_cons.mp h1 with h2 | h2
        · exact Or.inl h2
        · rcases ih h2 with h3 | ⟨l, hl, hal⟩
          · exact Or.inl h3
          · exact Or.inr ⟨l, List.mem_cons_of_mem _ hl, hal⟩

lemma baseOf_chars (ce : List Char) : ∀ a ∈ baseOf ce, a ≠ '?' := by
  intro a ha
  rw [baseOf] at ha
  split_ifs at ha with h
  · have hne : ce.splitOn '?' ≠ [] := List.splitOnP_ne_nil _ ce
    exact (splitOn_mem_and_ne (headI_mem_of_ne_nil hne) a ha).2
  · intro hq
    subst hq
    rw [show (chars "?") = ['?'] from rfl] at h
    exact absurd ((containsSub_singleton ce '?').mpr ha) (by simp [h])

lemma addSkip_eq (ce : List Char) (k : Nat) :
    addSkip ce k
      = baseOf ce ++ '?' :: List.intercalate ['&'] (filteredParams ce ++ [skipLit k]) := by
  rw [addSkip]
  simp [show (chars "&") = ['&'] from rfl]

/-- The rewritten endpoint's query parameters are exactly the preserved
parameters of the endpoint it was built from, followed by the new `$skip`. -/
lemma queryList_addSkip (ce : List Char) (k : Nat) :
    queryList (addSkip ce k) = filteredParams ce ++ [skipLit k] := by
  have hPchars : ∀ l ∈ filteredParams ce ++ [skipLit k], ∀ a ∈ l, a ≠ '&' ∧ a ≠ '?' := by
    intro l hl
    rcases List.mem_append.mp hl with h | h
    · exact filteredParams_chars ce l h
    · rw [List.mem_singleton] at h; subst h; exact skipLit_ne_amp_qm k
  rw [addSkip_eq, queryList]
  have hcont : containsSub
      (baseOf ce ++ '?' :: List.intercalate ['&'] (filteredParams ce ++ [skipLit k]))
      (chars "?") = true := by
    rw [show (chars "?") = ['?'] from rfl, containsSub_singleton]
    exact List.mem_append.mpr (Or.inr (List.mem_cons_self _ _))
  rw [if_pos hcont]
  have h1 : (baseOf ce ++ '?' :: List.intercalate ['&'] (filteredParams ce ++ [skipLit k])).splitOn '?'
      = baseOf ce :: (List.intercalate ['&'] (filteredParams ce ++ [skipLit k])).splitOn '?' := by
    apply List.splitOnP_first
    · intro x hx
      simp only [beq_iff_eq]
      exact baseOf_chars ce x hx
    · simp
  have h2 : (List.intercalate ['&'] (filteredParams ce ++ [skipLit k])).splitOn '?'
      = [List.intercalate ['&'] (filteredParams ce ++ [skipLit k])] := by
    apply List.splitOnP_eq_single
    intro x hx
    simp only [beq_iff_eq]
    rcases mem_intercalate_amp hx with h | ⟨l, hl, hal⟩
    · subst h; decide
    · exact (hPchars l hl x hal).2
  rw [h1, h2]
  have h3 : (baseOf ce :: [List.intercalate ['&'] (filteredParams ce ++ [skipLit k])]).getD 1 []
      = List.intercalate ['&'] (filteredParams ce ++ [skipLit k]) := rfl
  rw [h3]
  apply List.splitOn_intercalate
  · intro l hl hmem
    exact (hPchars l hl '&' hmem).1 rfl
  · simp

lemma startsWith_append (p r : List Char) : startsWith (p ++ r) p = true := by
  rw [startsWith]
  induction p with
  | nil => simp [List.isPrefixOf]
  | cons c t ih => simp [List.isPrefixOf, ih]

/-- The preserved parameters are stable across `$skip` rewrites: filtering
again keeps them all and drops the appended `$skip`. -/
lemma filteredParams_addSkip (ce : List Char) (k : Nat) :
    filteredParams (addSkip ce k) = filteredParams ce := by
  rw [filteredParams, queryList_addSkip, List.filter_append]
  have h1 : (filteredParams ce).filter preserveP = filteredParams ce := by
    apply List.filter_eq_self.mpr
    intro a ha
    exact (List.mem_filter.mp ha).2
  have h2 : [skipLit k].filter preserveP = [] := by
    have hsk : preserveP (skipLit k) = false := by
      rw [preserveP, skipLit]
      rw [startsWith_append]
      rfl
    simp [hsk]
  rw [h1, h2, List.append_nil]

lemma baseOf_addSkip (ce : List Char) (k : Nat) : baseOf (addSkip ce k) = baseOf ce := by
  rw [addSkip_eq, baseOf]
  have hcont : containsSub
      (baseOf ce ++ '?' :: List.intercalate ['&'] (filteredParams ce ++ [skipLit k]))
      (chars "?") = true := by
    rw [show (chars "?") = ['?'] from rfl, containsSub_singleton]
    exact List.mem_append.mpr (Or.inr (List.mem_cons_self _ _))
  rw [if_pos hcont]
  have h1 : (baseOf ce ++ '?' :: List.intercalate ['&'] (filteredParams ce ++ [skipLit k])).splitOn '?'
      = baseOf ce :: (List.intercalate ['&'] (filteredParams ce ++ [skipLit k])).splitOn '?' := by
    apply List.splitOnP_first
    · intro x hx
      simp only [beq_iff_eq]
      exact baseOf_chars ce x hx
    · simp
  rw [h1]
  rfl

/-- Rewriting an already-rewritten endpoint gives the same result as
rewriting the endpoint it came from: the running `$skip` replaces the old
one and the preserved parameters survive. -/
lemma addSkip_addSkip (ce : List Char) (k k' : Nat) :
    addSkip (addSkip ce k) k' = addSkip ce k' := by
  rw [addSkip_eq (addSkip ce k), baseOf_addSkip, filteredParams_addSkip, addSkip_eq]

/-! ## Claim theorems -/

/-- Claim C1: for every paginated `GetPaginated` call where the server
returns three consecutive pages of sizes 20, 20 and 5 with no continuation
link and the initial query contains no `$top` (and no pre-existing `$skip`),
the call returns exactly the 45 records in fetch order and issues exactly 3
page requests, the first being the original endpoint (running `$skip` offset
0) and the next two carrying exactly the preserved parameters plus
`$skip=20` and `$skip=40`: each manual cycle increments the running `$skip`
offset by the number of records just received. -/
theorem c1_manual_skip_three_pages {α : Type}
    (fetchPage : Nat → List Char → Option (ODataResp α))
    (rewriteNext : List Char → Option (List Char))
    (e : List Char) (p1 p2 p3 : List α) (fuel : Nat)
    (htop : containsSub e (chars "$top=") = false)
    (_hskip : containsSub e (chars "$skip=") = false)
    (h1 : p1.length = 20) (h2 : p2.length = 20) (h3 : p3.length = 5)
    (hf0 : ∀ ep, fetchPage 0 ep = some ⟨p1, []⟩)
    (hf1 : ∀ ep, fetchPage 1 ep = some ⟨p2, []⟩)
    (hf2 : ∀ ep, fetchPage 2 ep = some ⟨p3, []⟩)
    (hfuel : 3 ≤ fuel) :
    GetPaginatedM fetchPage rewriteNext e fuel
        = (.ok (p1 ++ p2 ++ p3), [e, addSkip e 20, addSkip e 40])
      ∧ (p1 ++ p2 ++ p3).length = 45
      ∧ queryList (addSkip e 20) = filteredParams e ++ [skipLit 20]
      ∧ queryList (addSkip e 40) = filteredParams e ++ [skipLit 40] := by
  obtain ⟨f, rfl⟩ : ∃ f, fuel = f + 3 := ⟨fuel - 3, by omega⟩
  have htopn : parseTop e = none := by rw [parseTop, afterFirst_eq_none htop]
  refine ⟨?_, by simp [h1, h2, h3], queryList_addSkip e 20, queryList_addSkip e 40⟩
  rw [GetPaginatedM, htopn]
  simp [getPaginatedLoop, hf0, hf1, hf2, h1, h2, h3, addSkip_addSkip]

/-- Witness for C1 at a concrete run: endpoint `/items`, pages
`range 20`, `range 20`, `range 5`, fuel 3. -/
theorem c1_manual_skip_three_pages_witness :
    GetPaginatedM
        (fun i _ => if i = 0 then some ⟨List.range 20, ([] : List Char)⟩
          else if i = 1 then some ⟨List.range 20, []⟩
          else some (⟨List.range 5, []⟩ : ODataResp Nat))
        (fun _ => none) (chars "/items") 3
        = (.ok (List.range 20 ++ List.range 20 ++ List.range 5),
           [chars "/items", addSkip (chars "/items") 20, addSkip (chars "/items") 40])
      ∧ (List.range 20 ++ List.range 20 ++ List.range 5).length = 45
      ∧ queryList (addSkip (chars "/items") 20)
          = filteredParams (chars "/items") ++ [skipLit 20]
      ∧ queryList (addSkip (chars "/items") 40)
          = filteredParams (chars "/items") ++ [skipLit 40] :=
  c1_manual_skip_three_pages _ _ (chars "/items") _ _ _ 3
    (by decide) (by decide) (by simp) (by simp) (by simp)
    (fun _ => rfl) (fun _ => rfl) (fun _ => rfl) (by omega)

/-- Claim C3: with no continuation link, a short page (fewer than 20
records, more than zero) ends pagination when at least one manual `$skip`
cycle has already happened (part A: pages of sizes 20 then `s`, `0 < s < 20`,
stop after exactly 2 requests); but a short very first page does not — one
more manual `$skip` request is issued (part B: first page of size
`0 < s < 20`, a second request with `$skip=s` is issued, after which the run
stops). -/
theorem c3_short_page_heuristic {α : Type} :
    (∀ (fetchPage : Nat → List Char → Option (ODataResp α))
       (rewriteNext : List Char → Option (List Char))
       (e : List Char) (p1 p2 : List α) (fuel : Nat),
      containsSub e (chars "$top=") = false →
      p1.length = 20 → 0 < p2.length → p2.length < 20 →
      (∀ ep, fetchPage 0 ep = some ⟨p1, []⟩) →
      (∀ ep, fetchPage 1 ep = some ⟨p2, []⟩) →
      2 ≤ fuel →
      GetPaginatedM fetchPage rewriteNext e fuel
        = (.ok (p1 ++ p2), [e, addSkip e 20]))
    ∧
    (∀ (fetchPage : Nat → List Char → Option (ODataResp α))
       (rewriteNext : List Char → Option (List Char))
       (e : List Char) (p1 p2 : List α) (fuel : Nat),
      containsSub e (chars "$top=") = false →
      0 < p1.length → p1.length < 20 → p2.length < 20 →
      (∀ ep, fetchPage 0 ep = some ⟨p1, []⟩) →
      (∀ ep, fetchPage 1 ep = some ⟨p2, []⟩) →
      2 ≤ fuel →
      GetPaginatedM fetchPage rewriteNext e fuel
        = (.ok (p1 ++ p2), [e, addSkip e p1.length])) := by
  constructor
  · intro fetchPage rewriteNext e p1 p2 fuel htop h1 h2a h2b hf0 hf1 hfuel
    obtain ⟨f, rfl⟩ : ∃ f, fuel = f + 2 := ⟨fuel - 2, by omega⟩
    have htopn : parseTop e = none := by rw [parseTop, afterFirst_eq_none htop]
    rw [GetPaginatedM, htopn]
    simp [getPaginatedLoop, hf0, hf1, h1, h2b, Nat.pos_iff_ne_zero.mp h2a]
  · intro fetchPage rewriteNext e p1 p2 fuel htop h1a h1b h2 hf0 hf1 hfuel
    obtain ⟨f, rfl⟩ : ∃ f, fuel = f + 2 := ⟨fuel - 2, by omega⟩
    have htopn : parseTop e = none := by rw [parseTop, afterFirst_eq_none htop]
    rw [GetPaginatedM, htopn]
    rcases Nat.eq_zero_or_pos p2.length with hz | hpos
    · simp [getPaginatedLoop, hf0, hf1, h1b, hz, Nat.pos_iff_ne_zero.mp h1a,
        List.length_eq_zero.mp hz]
    · simp [getPaginatedLoop, hf0, hf1, h1b, h2, h1a, hpos,
        Nat.pos_iff_ne_zero.mp h1a, Nat.pos_iff_ne_zero.mp hpos]

/-- Witness for C3 at concrete runs: part A with pages `range 20` and
`range 5`; part B with pages `range 7` and `range 3`. -/
theorem c3_short_page_heuristic_witness :
    GetPaginatedM
        (fun i _ => if i = 0 then some ⟨List.range 20, ([] : List Char)⟩
          else some (⟨List.range 5, []⟩ : ODataResp Nat))
        (fun _ => none) (chars "/items") 2
        = (.ok (List.range 20 ++ List.range 5), [chars "/items", addSkip (chars "/items") 20])
    ∧ GetPaginatedM
        (fun i _ => if i = 0 then some ⟨List.range 7, ([] : List Char)⟩
          else some (⟨List.range 3, []⟩ : ODataResp Nat))
        (fun _ => none) (chars "/items") 2
        = (.ok (List.range 7 ++ List.range 3),
           [chars "/items", addSkip (chars "/items") (List.range 7).length]) :=
  ⟨(c3_short_page_heuristic.1) _ _ (chars "/items") _ _ 2 (by decide)
      (by simp) (by simp) (by simp) (fun _ => rfl) (fun _ => rfl) (by omega),
   (c3_short_page_heuristic.2) _ _ (chars "/items") _ _ 2 (by decide)
      (by simp) (by simp) (by simp) (fun _ => rfl) (fun _ => rfl) (by omega)⟩

/-- Invariant for C9: in a run whose pages never carry a continuation link,
every page request after the first carries exactly the preserved parameters
of the original endpoint plus a fresh `$skip`. -/
lemma manual_trace_aux {α : Type} (fetchPage : Nat → List Char → Option (ODataResp α))
    (rewriteNext : List Char → Option (List Char)) (maxResults : Int) (e : List Char)
    (hnl : ∀ i ep r, fetchPage i ep = some r → r.nextLink = []) :
    ∀ (fuel : Nat) (acc : List α) (ce : List Char) (skipCount pageNum : Nat)
      (trace : List (List Char)),
      (trace = [] ∧ ce = e ∧ skipCount = 0 ∨
        trace ≠ [] ∧ 0 < skipCount ∧ 0 < acc.length ∧ filteredParams ce = filteredParams e) →
      (∀ t ∈ trace.drop 1, ∃ k, queryList t = filteredParams e ++ [skipLit k]) →
      ∀ t ∈ (getPaginatedLoop fetchPage rewriteNext maxResults fuel
                acc ce skipCount pageNum trace).2.drop 1,
        ∃ k, queryList t = filteredParams e ++ [skipLit k] := by
  intro fuel
  induction fuel with
  | zero => intro acc ce skip pageNum trace _ hprev; exact hprev
  | succ f ih =>
    intro acc ce skip pageNum trace hinv hprev
    simp only [getPaginatedLoop]
    by_cases hA : maxResults > 0 ∧ (acc.length : Int) ≥ maxResults
    · rw [if_pos hA]; exact hprev
    rw [if_neg hA]
    rcases hinv with ⟨rfl, rfl, rfl⟩ | ⟨htr, hsk, hacc, hfp⟩
    · -- very first request: the endpoint goes out unrewritten
      rw [if_neg (show ¬(0 < 0 ∧ 0 < acc.length) by simp)]
      have hP' : ∀ t ∈ (([] : List (List Char)) ++ [ce]).drop 1,
          ∃ k, queryList t = filteredParams ce ++ [skipLit k] := by
        intro t ht
        exact absurd ht (List.not_mem_nil t)
      cases hfpq : fetchPage (List.length ([] : List (List Char))) ce with
      | none => exact hP'
      | some resp =>
        have hnl' : resp.nextLink = [] := hnl _ _ _ hfpq
        dsimp only
        rw [hnl']
        by_cases hB : maxResults > 0 ∧ (((acc ++ resp.value).length : Int)) ≥ maxResults
        · rw [if_pos hB]; exact hP'
        rw [if_neg hB, if_neg (show ¬(([] : List Char) ≠ []) by simp)]
        by_cases hC : resp.value.length = 0
        · rw [if_pos hC]; exact hP'
        rw [if_neg hC, if_neg hB]
        rw [if_neg (show ¬(resp.value.length < 20 ∧ 0 < 0) by simp)]
        refine ih _ _ _ _ _ (Or.inr ⟨by simp, by omega, ?_, rfl⟩) hP'
        rw [List.length_append]
        omega
    · -- a manual `$skip` cycle: the endpoint is rewritten before the request
      rw [if_pos ⟨hsk, hacc⟩]
      have hnew : ∃ k, queryList (addSkip ce skip) = filteredParams e ++ [skipLit k] :=
        ⟨skip, by rw [queryList_addSkip, hfp]⟩
      have hP' : ∀ t ∈ (trace ++ [addSkip ce skip]).drop 1,
          ∃ k, queryList t = filteredParams e ++ [skipLit k] := by
        rw [List.drop_append_of_le_length (by
          cases trace with
          | nil => exact absurd rfl htr
          | cons a l => simp)]
        intro t ht
        rcases List.mem_append.mp ht with h | h
        · exact hprev t h
        · rw [List.mem_singleton] at h; subst h; exact hnew
      cases hfpq : fetchPage trace.length (addSkip ce skip) with
      | none => exact hP'
      | some resp =>
        have hnl' : resp.nextLink = [] := hnl _ _ _ hfpq
        dsimp only
        rw [hnl']
        by_cases hB : maxResults > 0 ∧ (((acc ++ resp.value).length : Int)) ≥ maxResults
        · rw [if_pos hB]; exact hP'
        rw [if_neg hB, if_neg (show ¬(([] : List Char) ≠ []) by simp)]
        by_cases hC : resp.value.length = 0
        · rw [if_pos hC]; exact hP'
        rw [if_neg hC, if_neg hB]
        by_cases hD : resp.value.length < 20 ∧ 0 < skip
        · rw [if_pos hD]; exact hP'
        rw [if_neg hD]
        refine ih _ _ _ _ _ (Or.inr ⟨by simp, by omega, ?_, ?_⟩) hP'
        · rw [List.length_append]; omega
        · rw [filteredParams_addSkip, hfp]

/-- Claim C9: during manual `$skip` pagination (no continuation links ever
returned), every reissued page request — every request after the first — has
as its query string exactly the parameters of the original request that
begin with `$filter=`, `$select=`, `$orderby=` or `$top=`, in order, plus
the newly computed `$skip`; every other query parameter (such as `$expand`
or a non-`$` parameter) is dropped from the second manually-paginated page
onward. -/
theorem c9_manual_requests_preserve_params {α : Type}
    (fetchPage : Nat → List Char → Option (ODataResp α))
    (rewriteNext : List Char → Option (List Char)) (e : List Char) (fuel : Nat)
    (out : PagOutcome α) (tr : List (List Char))
    (hnl : ∀ i ep r, fetchPage i ep = some r → r.nextLink = [])
    (hrun : GetPaginatedM fetchPage rewriteNext e fuel = (out, tr)) :
    ∀ t ∈ tr.drop 1, ∃ k, queryList t = filteredParams e ++ [skipLit k] := by
  have h := manual_trace_aux fetchPage rewriteNext
    (match parseTop e with | some t => t | none => -1) e hnl fuel [] e 0 1 []
    (Or.inl ⟨rfl, rfl, rfl⟩) (by intro t ht; exact absurd ht (List.not_mem_nil t))
  rw [GetPaginatedM] at hrun
  rw [hrun] at h
  exact h

/-- Witness for C9 at a concrete run: endpoint
`/i?$filter=x&$expand=y&c=1`, a single short first page of one record, so
the second (reissued) request keeps only `$filter=x` and adds `$skip=1`. -/
theorem c9_manual_requests_preserve_params_witness :
    ∃ k, queryList (addSkip (chars "/i?$filter=x&$expand=y&c=1") 1)
      = filteredParams (chars "/i?$filter=x&$expand=y&c=1") ++ [skipLit k] :=
  c9_manual_requests_preserve_params
    (fun _ _ => some (⟨[0], []⟩ : ODataResp Nat)) (fun _ => none)
    (chars "/i?$filter=x&$expand=y&c=1") 2 (.ok [0, 0])
    [chars "/i?$filter=x&$expand=y&c=1", addSkip (chars "/i?$filter=x&$expand=y&c=1") 1]
    (fun _ _ r hr => by
      have hr' : some (⟨[0], []⟩ : ODataResp Nat) = some r := hr
      injection hr' with h
      rw [← h])
    (by decide)
    (addSkip (chars "/i?$filter=x&$expand=y&c=1") 1) (by decide)

/-- A server holding a fixed list of records and serving it in pages of 20
(the typical Business Central page size assumed by `GetPaginated` itself),
scripted by request index like the repository's mock servers; it never emits
a continuation link. -/
def dbFetch {α : Type} (db : List α) : Nat → List Char → Option (ODataResp α) :=
  fun i _ => some ⟨(db.drop (20 * i)).take 20, []⟩

/-- Induction for C2: from a state where `i` pages have been fetched, the
run with a `$top` cap `N` ends with exactly `db.take N.toNat` and every
request was issued while the cumulative count was still below `N`. -/
lemma c2_loop_aux {α : Type} (db : List α) (N : Int)
    (rewriteNext : List Char → Option (List Char)) (hN : 0 < N) :
    ∀ (fuel i skipCount pageNum : Nat) (ce : List Char) (trace : List (List Char)),
      trace.length = i →
      (i = 0 → skipCount = 0) →
      (0 < i → 0 < skipCount) →
      (0 < i → 20 * (i - 1) < db.length) →
      ((db.take (20 * i)).length : Int) < N →
      db.length + 2 ≤ fuel + i →
      ∃ tr, getPaginatedLoop (dbFetch db) rewriteNext N fuel
          (db.take (20 * i)) ce skipCount pageNum trace
        = (.ok (db.take N.toNat), tr)
        ∧ i < tr.length
        ∧ ((db.take (20 * (tr.length - 1))).length : Int) < N := by
  intro fuel
  induction fuel with
  | zero =>
    intro i skipCount pageNum ce trace _ _ _ hreach hacc hfuel
    exfalso
    rcases Nat.eq_zero_or_pos i with hz | hp
    · omega
    · have := hreach hp
      omega
  | succ f ih =>
    intro i skipCount pageNum ce trace htr hz hp hreach hacc hfuel
    simp only [getPaginatedLoop]
    rw [if_neg (by omega : ¬(N > 0 ∧ ((db.take (20 * i)).length : Int) ≥ N))]
    simp only [dbFetch, htr]
    set ce' := if 0 < skipCount ∧ 0 < (db.take (20 * i)).length then addSkip ce skipCount
      else ce with hce'
    have hacc' : db.take (20 * i) ++ (db.drop (20 * i)).take 20 = db.take (20 * (i + 1)) := by
      rw [show 20 * (i + 1) = 20 * i + 20 by ring, List.take_add]
    have hlen20 : ((db.drop (20 * i)).take 20).length = min 20 (db.length - 20 * i) := by
      rw [List.length_take, List.length_drop]
    rw [hacc']
    have hlenacc : (db.take (20 * (i + 1))).length = min (20 * (i + 1)) db.length := by
      rw [List.length_take]
    by_cases hB : N > 0 ∧ ((db.take (20 * (i + 1))).length : Int) ≥ N
    · rw [if_pos hB]
      refine ⟨trace ++ [ce'], ?_, by simp [htr], ?_⟩
      · have htake : (db.take (20 * (i + 1))).take N.toNat = db.take N.toNat := by
          rw [List.take_take]
          congr 1
          omega
        rw [htake]
      · have hlen1 : (trace ++ [ce']).length - 1 = i := by simp [htr]
        rw [hlen1]
        exact hacc
    · rw [if_neg hB]
      have hBlt : ((db.take (20 * (i + 1))).length : Int) < N := by
        rcases not_and_or.mp hB with h | h
        · exact absurd hN (by simpa using h)
        · omega
      by_cases hC : ((db.drop (20 * i)).take 20).length = 0
      · rw [if_neg (by simp : ¬(([] : List Char) ≠ [])), if_pos hC]
        have hdb : db.length ≤ 20 * i := by omega
        have hall : db.take (20 * (i + 1)) = db := List.take_of_length_le (by omega)
        have hallN : db.take N.toNat = db := by
          apply List.take_of_length_le
          omega
        refine ⟨trace ++ [ce'], ?_, by simp [htr], ?_⟩
        · rw [hall, hallN]
        · have hlen1 : (trace ++ [ce']).length - 1 = i := by simp [htr]
          rw [hlen1]
          exact hacc
      · rw [if_neg (by simp : ¬(([] : List Char) ≠ [])), if_neg hC, if_neg hB]
        by_cases hD : ((db.drop (20 * i)).take 20).length < 20 ∧ 0 < skipCount
        · rw [if_pos hD]
          have hshort : db.length < 20 * (i + 1) := by omega
          have hall : db.take (20 * (i + 1)) = db := List.take_of_length_le (by omega)
          have hallN : db.take N.toNat = db := by
            apply List.take_of_length_le
            omega
          refine ⟨trace ++ [ce'], ?_, by simp [htr], ?_⟩
          · rw [hall, hallN]
          · have hlen1 : (trace ++ [ce']).length - 1 = i := by simp [htr]
            rw [hlen1]
            exact hacc
        · rw [if_neg hD]
          have hfull : ¬(((db.drop (20 * i)).take 20).length < 20) ∨ skipCount = 0 := by
            rcases Nat.eq_zero_or_pos skipCount with h0 | hpos
            · exact Or.inr h0
            · exact Or.inl fun hlt => hD ⟨hlt, hpos⟩
          obtain ⟨tr, heq, hlt, hpr⟩ := ih (i + 1) (skipCount + ((db.drop (20 * i)).take 20).length)
            (pageNum + 1) ce' (trace ++ [ce']) (by simp [htr]) (by omega) (by omega)
            (fun _ => by omega) hBlt (by omega)
          exact ⟨tr, heq, by omega, hpr⟩

/-- Claim C2: for every paginated `GetPaginated` call against a server
holding a fixed record list `db` (served in pages of the typical size 20,
never emitting a continuation link), if the initial query string contains a
parseable `$top=N` with `N > 0` then the call returns exactly
`min N db.length` records — `db.take N.toNat`, truncated to exactly `N` even
when a page overshoots the cap mid-page — and every page request (the last
one included) was issued while the cumulative record count was still
strictly below `N`. -/
theorem c2_top_cap_truncation {α : Type} (db : List α)
    (rewriteNext : List Char → Option (List Char)) (e : List Char) (N : Int) (fuel : Nat)
    (hparse : parseTop e = some N) (hN : 0 < N) (hfuel : db.length + 2 ≤ fuel) :
    ∃ tr, GetPaginatedM (dbFetch db) rewriteNext e fuel = (.ok (db.take N.toNat), tr)
      ∧ 1 ≤ tr.length
      ∧ ((db.take (20 * (tr.length - 1))).length : Int) < N
      ∧ (db.take N.toNat).length = min N.toNat db.length := by
  have h := c2_loop_aux db N rewriteNext hN fuel 0 0 1 e [] rfl (fun _ => rfl)
    (by omega) (by omega) (by simpa using hN) (by omega)
  rw [GetPaginatedM, hparse]
  obtain ⟨tr, heq, hlen, hpr⟩ := h
  refine ⟨tr, ?_, by omega, hpr, by rw [List.length_take]⟩
  simpa using heq

/-- Witness for C2 at a concrete run: 45 records, `$top=30`, so the result
is the first 30 records, fetched in two pages (the second request going out
with 20 < 30 records accumulated) and truncated mid-page. -/
theorem c2_top_cap_truncation_witness :
    ∃ tr, GetPaginatedM (dbFetch (List.range 45)) (fun _ => none) (chars "/t?$top=30") 47
        = (.ok ((List.range 45).take (30 : Int).toNat), tr)
      ∧ 1 ≤ tr.length
      ∧ (((List.range 45).take (20 * (tr.length - 1))).length : Int) < 30
      ∧ ((List.range 45).take (30 : Int).toNat).length = min (30 : Int).toNat (List.range 45).length :=
  c2_top_cap_truncation (List.range 45) (fun _ => none) (chars "/t?$top=30") 30 47
    (by decide) (by decide) (by simp)

/-- Claim C6: if the cached token is non-empty and `now` is strictly before
the cached expiry minus the 5-minute safety margin, `GetToken` returns the
cached token unchanged with no token-endpoint call (part one: state and
exchange counter untouched); consequently two sequential `GetToken` calls
within the validity window perform exactly one token exchange (part two,
from an invalid cache: both calls return the freshly fetched token and the
exchange counter increases by exactly one). -/
theorem c6_token_reuse :
    (∀ (fetch : Nat → Option TokenResp) (now : Int) (st : AuthSt),
      st.token ≠ [] → now < st.tokenExpiry - 300 →
      GetTokenM fetch now st = (some st.token, st))
    ∧
    (∀ (fetch : Nat → Option TokenResp) (now1 now2 : Int) (st : AuthSt) (tr : TokenResp),
      ¬(st.token ≠ [] ∧ now1 < st.tokenExpiry - 300) →
      fetch st.fetchCount = some tr →
      tr.accessToken ≠ [] →
      now2 < now1 + tr.expiresIn - 300 →
      (GetTokenM fetch now1 st).1 = some tr.accessToken ∧
      (GetTokenM fetch now2 (GetTokenM fetch now1 st).2).1 = some tr.accessToken ∧
      (GetTokenM fetch now2 (GetTokenM fetch now1 st).2).2
        = ⟨tr.accessToken, now1 + tr.expiresIn, st.fetchCount + 1, st.invCount⟩) := by
  constructor
  · intro fetch now st h1 h2
    rw [GetTokenM, if_pos ⟨h1, h2⟩]
  · intro fetch now1 now2 st tr hinv hfetch htok hwin
    have h1 : GetTokenM fetch now1 st
        = (some tr.accessToken,
           ⟨tr.accessToken, now1 + tr.expiresIn, st.fetchCount + 1, st.invCount⟩) := by
      simp only [GetTokenM, refreshTokenM, if_neg hinv, hfetch]
    have h2 : GetTokenM fetch now2
        (⟨tr.accessToken, now1 + tr.expiresIn, st.fetchCount + 1, st.invCount⟩ : AuthSt)
        = (some tr.accessToken,
           ⟨tr.accessToken, now1 + tr.expiresIn, st.fetchCount + 1, st.invCount⟩) := by
      rw [GetTokenM, if_pos ⟨htok, by simpa using hwin⟩]
    rw [h1, h2]
    exact ⟨rfl, rfl, rfl⟩

/-- Witness for C6: an empty cache at time 0, an exchange yielding token
`tk` valid for 3600 s, a second call at time 600 — still one exchange. -/
theorem c6_token_reuse_witness :
    (GetTokenM (fun _ => some ⟨chars "tk", chars "Bearer", 3600, []⟩) 0
        ⟨[], 0, 0, 0⟩).1 = some (chars "tk") ∧
    (GetTokenM (fun _ => some ⟨chars "tk", chars "Bearer", 3600, []⟩) 600
        (GetTokenM (fun _ => some ⟨chars "tk", chars "Bearer", 3600, []⟩) 0
          ⟨[], 0, 0, 0⟩).2).1 = some (chars "tk") ∧
    (GetTokenM (fun _ => some ⟨chars "tk", chars "Bearer", 3600, []⟩) 600
        (GetTokenM (fun _ => some ⟨chars "tk", chars "Bearer", 3600, []⟩) 0
          ⟨[], 0, 0, 0⟩).2).2 = ⟨chars "tk", 0 + 3600, 0 + 1, 0⟩ := by
  have h := c6_token_reuse.2 (fun _ => some ⟨chars "tk", chars "Bearer", 3600, []⟩)
    0 600 ⟨[], 0, 0, 0⟩ ⟨chars "tk", chars "Bearer", 3600, []⟩
    (by simp) rfl (by decide) (by decide)
  exact h

/-- Claim C7: when the token exchange fails (non-200 status or malformed
body, collapsed to a `none` answer from the exchange oracle), `GetToken`
returns an error and leaves the cached token and expiry exactly as they
were — nothing is cached on failure. -/
theorem c7_failed_exchange_caches_nothing
    (fetch : Nat → Option TokenResp) (now : Int) (st : AuthSt)
    (hinv : ¬(st.token ≠ [] ∧ now < st.tokenExpiry - 300))
    (hfetch : fetch st.fetchCount = none) :
    (GetTokenM fetch now st).1 = none
    ∧ (GetTokenM fetch now st).2.token = st.token
    ∧ (GetTokenM fetch now st).2.tokenExpiry = st.tokenExpiry := by
  simp only [GetTokenM, refreshTokenM, if_neg hinv, hfetch]
  exact ⟨trivial, trivial, trivial⟩

/-- Witness for C7: an expired cache holding `old`, a failing exchange; the
call errors and `old` with its expiry is still there. -/
theorem c7_failed_exchange_caches_nothing_witness :
    (GetTokenM (fun _ => none) 1000 ⟨chars "old", 500, 3, 1⟩).1 = none
    ∧ (GetTokenM (fun _ => none) 1000 ⟨chars "old", 500, 3, 1⟩).2.token = chars "old"
    ∧ (GetTokenM (fun _ => none) 1000 ⟨chars "old", 500, 3, 1⟩).2.tokenExpiry = 500 :=
  c7_failed_exchange_caches_nothing (fun _ => none) 1000 ⟨chars "old", 500, 3, 1⟩
    (by decide) rfl

/-- Serialized execution of the slow path: the reader/writer lock of `Auth`
serializes the bodies of `refreshToken`, so `N` concurrent `GetToken` calls
that all found the cache invalid are modelled as their `refreshToken`
critical sections running one after the other, at the times in `ts`. -/
def refreshSeq (fetch : Nat → Option TokenResp) :
    List Int → AuthSt → List (Option (List Char)) × AuthSt
  | [], st => ([], st)
  | t :: ts, st =>
    let r := refreshTokenM fetch t st
    let rest := refreshSeq fetch ts r.2
    (r.1 :: rest.1, rest.2)

lemma refreshSeq_cached (fetch : Nat → Option TokenResp) (ts : List Int) :
    ∀ st : AuthSt, st.token ≠ [] →
      (∀ t ∈ ts, t < st.tokenExpiry - 300) →
      refreshSeq fetch ts st = (List.replicate ts.length (some st.token), st) := by
  induction ts with
  | nil => intro st _ _; rfl
  | cons t ts ih =>
    intro st htok hval
    have h1 : refreshTokenM fetch t st = (some st.token, st) := by
      rw [refreshTokenM, if_pos ⟨htok, hval t (List.mem_cons_self t ts)⟩]
    simp only [refreshSeq, h1, ih st htok (fun u hu => hval u (List.mem_cons_of_mem t hu)),
      List.length_cons, List.replicate_succ]

/-- Claim C10: `N ≥ 1` concurrent `GetToken` calls on an empty or expired
cache — modelled as the lock-serialized sequence of their `refreshToken`
critical sections at times `t0 :: rest` — trigger exactly one network
exchange (the counter increases by one), and all `N` calls return the same
newly fetched token: the exclusive-lock path re-checks validity, so only the
first caller performs the exchange. -/
theorem c10_concurrent_refresh_dedup
    (fetch : Nat → Option TokenResp) (t0 : Int) (rest : List Int)
    (st : AuthSt) (tr : TokenResp)
    (hinv : ¬(st.token ≠ [] ∧ t0 < st.tokenExpiry - 300))
    (hfetch : fetch st.fetchCount = some tr)
    (htok : tr.accessToken ≠ [])
    (hwin : ∀ t ∈ rest, t < t0 + tr.expiresIn - 300) :
    refreshSeq fetch (t0 :: rest) st
      = (List.replicate (rest.length + 1) (some tr.accessToken),
         ⟨tr.accessToken, t0 + tr.expiresIn, st.fetchCount + 1, st.invCount⟩) := by
  have h1 : refreshTokenM fetch t0 st
      = (some tr.accessToken,
         ⟨tr.accessToken, t0 + tr.expiresIn, st.fetchCount + 1, st.invCount⟩) := by
    simp only [refreshTokenM, if_neg hinv, hfetch]
  have h2 := refreshSeq_cached fetch rest
    ⟨tr.accessToken, t0 + tr.expiresIn, st.fetchCount + 1, st.invCount⟩ htok
    (by intro t ht; simpa using hwin t ht)
  simp only [refreshSeq, h1, h2, List.replicate_succ]

/-- Witness for C10: four serialized callers on an empty cache; one
exchange, all four see `tk`. -/
theorem c10_concurrent_refresh_dedup_witness :
    refreshSeq (fun _ => some ⟨chars "tk", chars "Bearer", 3600, []⟩)
        ([0, 1, 2, 3] : List Int) ⟨[], 0, 5, 2⟩
      = (List.replicate 4 (some (chars "tk")), ⟨chars "tk", 0 + 3600, 5 + 1, 2⟩) :=
  c10_concurrent_refresh_dedup (fun _ => some ⟨chars "tk", chars "Bearer", 3600, []⟩)
    0 [1, 2, 3] ⟨[], 0, 5, 2⟩ ⟨chars "tk", chars "Bearer", 3600, []⟩
    (by simp) rfl (by decide) (by decide)

/-- Claim C5: when an attempt of `GetWithRetry` receives a 401, the client
invalidates the cached token exactly once (`invCount + 1`), fetches a fresh
token exactly once (`fetchCount + 1`), replaces the Authorization header
(the replayed request carries the new bearer), and replays the same request
once within the same attempt: the call succeeds with the replay's 200
response even with a single-attempt budget (`maxRetries = m + 1` for any
`m`, in particular 1), so no extra attempt is consumed. -/
theorem c5_401_recovery
    (fetch : Nat → Option TokenResp) (http : Nat → Option HttpResp)
    (now : Int) (e ra : List Char) (a : AuthSt) (tr : TokenResp) (r2 : HttpResp) (m : Nat)
    (htok : a.token ≠ []) (hvalid : now < a.tokenExpiry - 300)
    (hfetch : fetch a.fetchCount = some tr)
    (hhttp0 : http 0 = some ⟨401, ra⟩)
    (hhttp1 : http 1 = some r2)
    (hr2 : r2.status = 200) :
    GetWithRetryM fetch http now e (m + 1) ⟨a, 0, []⟩
      = (some r2,
         ⟨⟨tr.accessToken, now + tr.expiresIn, a.fetchCount + 1, a.invCount + 1⟩, 2,
          [.req e a.token, .req e tr.accessToken]⟩) := by
  have hget1 : GetTokenM fetch now a = (some a.token, a) := by
    rw [GetTokenM, if_pos ⟨htok, hvalid⟩]
  have hinv : InvalidateTokenM a = ⟨[], 0, a.fetchCount, a.invCount + 1⟩ := by
    rw [InvalidateTokenM]
    exact if_pos htok
  have hget2 : GetTokenM fetch now (⟨[], 0, a.fetchCount, a.invCount + 1⟩ : AuthSt)
      = (some tr.accessToken,
         ⟨tr.accessToken, now + tr.expiresIn, a.fetchCount + 1, a.invCount + 1⟩) := by
    simp [GetTokenM, refreshTokenM, hfetch]
  rw [GetWithRetryM, getWithRetryAux]
  simp only [lt_irrefl, if_false, if_neg (lt_irrefl 0), hget1, hhttp0, hinv, hget2, hhttp1]
  simp [hr2]

/-- Witness for C5: cached token `t0` still valid, first request answered
401, replay answered 200, single-attempt budget; one invalidation, one
fresh fetch, the replay carries the new bearer `t1`. -/
theorem c5_401_recovery_witness :
    GetWithRetryM (fun _ => some ⟨chars "t1", chars "Bearer", 3600, []⟩)
        (fun i => if i = 0 then some ⟨401, []⟩ else some ⟨200, []⟩)
        0 (chars "/test") 1 ⟨⟨chars "t0", 10000, 0, 0⟩, 0, []⟩
      = (some ⟨200, []⟩,
         ⟨⟨chars "t1", 0 + 3600, 0 + 1, 0 + 1⟩, 2,
          [.req (chars "/test") (chars "t0"), .req (chars "/test") (chars "t1")]⟩) :=
  c5_401_recovery (fun _ => some ⟨chars "t1", chars "Bearer", 3600, []⟩)
    (fun i => if i = 0 then some ⟨401, []⟩ else some ⟨200, []⟩)
    0 (chars "/test") [] ⟨chars "t0", 10000, 0, 0⟩
    ⟨chars "t1", chars "Bearer", 3600, []⟩ ⟨200, []⟩ 0
    (by decide) (by decide) rfl rfl rfl rfl

/-! ## Lemmas for the 429 backoff computation -/

lemma digits_foldl_ge (ds : List Char) :
    ∀ x : Nat, x ≤ ds.foldl (fun a c => a * 10 + (c.toNat - 48)) x := by
  induction ds with
  | nil => intro x; exact le_refl x
  | cons c t ih =>
    intro x
    rw [List.foldl_cons]
    exact le_trans (by omega) (ih (x * 10 + (c.toNat - 48)))

lemma leadingIntAux_digits (ds : List Char) :
    ∀ (rest : List Char) (x : Nat),
      (∀ c ∈ ds, c.isDigit) →
      (match rest with | [] => True | c :: _ => c.isDigit = false) →
      ds.foldl (fun a c => a * 10 + (c.toNat - 48)) x ≤ 2 ^ 63 - 1 →
      leadingIntAux (ds ++ rest) x
        = some (ds.foldl (fun a c => a * 10 + (c.toNat - 48)) x, rest) := by
  induction ds with
  | nil =>
    intro rest x _ hrest _
    cases rest with
    | nil => rfl
    | cons c t =>
      rw [List.nil_append, leadingIntAux, List.foldl_nil, if_neg (by simp [hrest])]
  | cons c t ih =>
    intro rest x hdig hrest hbound
    have e63 : (2 : Nat) ^ 63 = 9223372036854775808 := by norm_num
    rw [List.cons_append, leadingIntAux]
    have hc : c.isDigit := hdig c (List.mem_cons_self c t)
    rw [if_pos hc]
    rw [List.foldl_cons] at hbound
    have hb1 : x * 10 + (c.toNat - 48) ≤ 2 ^ 63 - 1 :=
      le_trans (digits_foldl_ge t (x * 10 + (c.toNat - 48))) hbound
    rw [if_neg (show ¬(x > (2 ^ 63 - 1) / 10) by omega)]
    simp only [if_neg (show ¬(x * 10 + (c.toNat - 48) > 2 ^ 63 - 1) by omega)]
    rw [List.foldl_cons]
    exact ih rest (x * 10 + (c.toNat - 48)) (fun a ha => hdig a (List.mem_cons_of_mem c ha))
      hrest hbound

/-- Evaluation of the `time.ParseDuration` model on a digits-only string
followed by the appended `s`: the header is read as whole seconds. -/
lemma parseGoDuration_digits (ds : List Char) (hne : ds ≠ [])
    (hdig : ∀ c ∈ ds, c.isDigit) (hbound : digitsVal ds < 1000000000) :
    parseGoDuration (ds ++ chars "s") = some ((digitsVal ds : Int) * 1000000000) := by
  obtain ⟨d, ds', rfl⟩ := List.exists_cons_of_ne_nil hne
  have e63 : (2 : Nat) ^ 63 = 9223372036854775808 := by norm_num
  have hd : d.isDigit := hdig d (List.mem_cons_self d ds')
  have hdm : d ≠ '-' := by intro h; subst h; exact absurd hd (by decide)
  have hdp : d ≠ '+' := by intro h; subst h; exact absurd hd (by decide)
  have hd0 : ¬(d :: (ds' ++ chars "s") = chars "0") := by
    intro h
    have := congrArg List.length h
    simp [chars] at this
  have hlead : leadingIntAux (d :: (ds' ++ chars "s")) 0
      = some (digitsVal (d :: ds'), chars "s") := by
    have h := leadingIntAux_digits (d :: ds') (chars "s") 0 hdig
      (show 's'.isDigit = false by decide)
      (by
        rw [show (d :: ds').foldl (fun a c => a * 10 + (c.toNat - 48)) 0 = digitsVal (d :: ds')
          from rfl]
        omega)
    rw [List.cons_append] at h
    exact h
  have hloop : parseDurLoop ((d :: (ds' ++ chars "s")).length + 1) (d :: (ds' ++ chars "s")) 0
      = some (digitsVal (d :: ds') * 1000000000) := by
    simp only [parseDurLoop]
    rw [if_neg (by simp [hd])]
    rw [hlead]
    dsimp only
    have hpre : ¬((chars "s").length = (d :: (ds' ++ chars "s")).length) := by
      simp [chars]
    rw [if_neg (by decide), if_neg hpre]
    have htw : (chars "s").takeWhile (fun ch => ¬(ch = '.' ∨ ch.isDigit)) = chars "s" := by
      decide
    have hdw : (chars "s").dropWhile (fun ch => ¬(ch = '.' ∨ ch.isDigit)) = [] := by
      decide
    rw [htw]
    rw [if_neg (by decide : ¬(chars "s" = []))]
    rw [show durUnit (chars "s") = some 1000000000 from by decide]
    dsimp only
    have h1 : (2 : Nat) ^ 63 / 1000000000 = 9223372036 := by norm_num
    rw [if_neg (show ¬(digitsVal (d :: ds') > 2 ^ 63 / 1000000000) by omega)]
    rw [if_neg (show ¬(0 + digitsVal (d :: ds') * 1000000000 > 2 ^ 63) by omega)]
    rw [hdw]
    rw [Nat.zero_add]
  unfold parseGoDuration
  simp only [List.cons_append]
  rw [if_neg hdm, if_neg hdp]
  dsimp only
  rw [if_neg hd0, if_neg (by simp)]
  rw [hloop]
  dsimp only
  rw [if_neg (by simp), if_neg (show ¬((digitsVal (d :: ds') * 1000000000 : Nat) > 2 ^ 63 - 1)
    by omega)]
  norm_cast

lemma wrap64_id {x : Int} (h1 : -(2 ^ 63) ≤ x) (h2 : x < 2 ^ 63) : wrap64 x = x := by
  have e64 : (2 : Int) ^ 64 = 18446744073709551616 := by norm_num
  have e63 : (2 : Int) ^ 63 = 9223372036854775808 := by norm_num
  unfold wrap64
  omega

/-- Claim C4, amended.  For a 429 response: (a) a digits-only `Retry-After`
header `n` yields a wait of exactly `n` seconds (via Go's
`ParseDuration(header + "s")`); (b) with no header the wait is the
exponential backoff `5s * 2^attempt`; (c) with a header that parses neither
way (first character not a digit, dot or sign) the wait is the LINEAR
fallback `5s * (attempt + 1)` — not the exponential `5s * 2^attempt` the
original claim states; (d) inside the retry loop, the 429 wait recorded for
the response of attempt 0 is exactly `computeBackoff429 header 0`, followed
by the loop's own `2s` backoff before the next attempt. -/
theorem c4_backoff_429 :
    (∀ (ds : List Char) (attempt : Nat), ds ≠ [] → (∀ c ∈ ds, c.isDigit) →
      digitsVal ds < 1000000000 →
      computeBackoff429 ds attempt = (digitsVal ds : Int) * 1000000000)
    ∧ (∀ attempt : Nat, attempt ≤ 30 →
      computeBackoff429 [] attempt = 2 ^ attempt * 5 * 1000000000)
    ∧ (∀ (c : Char) (t : List Char) (attempt : Nat),
      ¬c.isDigit → c ≠ '.' → c ≠ '+' → c ≠ '-' → (attempt : Nat) < 1000000000 →
      computeBackoff429 (c :: t) attempt = ((attempt : Int) + 1) * 5 * 1000000000)
    ∧ (∀ (fetch : Nat → Option TokenResp) (http : Nat → Option HttpResp)
        (now : Int) (e h : List Char) (a : AuthSt) (r2 : HttpResp) (m : Nat),
      a.token ≠ [] → now < a.tokenExpiry - 300 →
      http 0 = some ⟨429, h⟩ → http 1 = some r2 → r2.status = 200 →
      GetWithRetryM fetch http now e (m + 2) ⟨a, 0, []⟩
        = (some r2,
           ⟨a, 2, [.req e a.token, .wait429 (computeBackoff429 h 0),
                   .waitRetry (2 * 1000000000), .req e a.token]⟩)) := by
  refine ⟨?_, ?_, ?_, ?_⟩
  · intro ds attempt hne hdig hbound
    rw [computeBackoff429, if_pos hne, parseGoDuration_digits ds hne hdig hbound]
  · intro attempt h30
    rw [computeBackoff429, if_neg (by simp)]
    rw [if_neg (by omega : ¬(64 ≤ attempt))]
    have hle : (2 : Int) ^ attempt ≤ 2 ^ 30 := pow_le_pow_right₀ (by norm_num) h30
    have hpos : (0 : Int) ≤ 2 ^ attempt * 5 * 1000000000 := by positivity
    rw [wrap64_id (le_trans (by norm_num) hpos) (by nlinarith)]
  · intro c t attempt hnd hdot hplus hminus hatt
    have hdur : parseGoDuration ((c :: t) ++ chars "s") = none := by
      unfold parseGoDuration
      simp only [List.cons_append]
      rw [if_neg hminus, if_neg hplus]
      dsimp only
      rw [if_neg (by
        intro hh
        have h1 : c = '0' := by
          have := congrArg (fun l => l.headI) hh
          simpa [chars] using this
        subst h1
        exact absurd hnd (by decide))]
      rw [if_neg (by simp)]
      simp only [parseDurLoop]
      rw [if_pos (by simp [hnd, hdot])]
    have hint : parseInt64 (c :: t) = none := by
      unfold parseInt64
      dsimp only
      rw [if_neg hplus, if_neg hminus]
      dsimp only
      rw [if_neg (by simp), if_neg (by simp [hnd])]
    rw [computeBackoff429, if_pos (by simp), hdur, hint]
    have ha : (attempt : Int) + 1 ≤ 1000000000 := by
      have : (attempt : Int) < 1000000000 := by exact_mod_cast hatt
      omega
    have hnn : (0 : Int) ≤ ((attempt : Int) + 1) * 5 * 1000000000 := by positivity
    rw [wrap64_id (le_trans (by norm_num) hnn) (by nlinarith)]
  · intro fetch http now e h a r2 m htok hvalid hh0 hh1 hr2
    have hget : GetTokenM fetch now a = (some a.token, a) := by
      rw [GetTokenM, if_pos ⟨htok, hvalid⟩]
    have hw : wrap64 ((if 64 ≤ (1 : Nat) - 1 then (0 : Int) else 2 ^ ((1 : Nat) - 1))
        * 2 * 1000000000) = 2 * 1000000000 := by decide
    rw [GetWithRetryM, getWithRetryAux]
    simp only [lt_irrefl, if_false, if_neg (lt_irrefl 0), hget, hh0]
    simp only [show ¬((429 : Nat) = 401) by decide, if_false, reduceIte]
    rw [getWithRetryAux]
    simp only [show (0 : Nat) < 1 by decide, if_true, hw, hget, hh1]
    simp [hr2]

/-- Counterexample to C4 as stated.  With an unparseable header (`abc`) at
attempt index 2 the code waits 15 s — the linear `5s * (attempt+1)` — not
the exponential `5s * 2^2 = 20 s` the claim asserts; and a duration-style
header `2m` is reinterpreted by `ParseDuration("2m" + "s")` as 2
milliseconds, not the 2 minutes the header denotes as a duration. -/
theorem c4_backoff_429_counterexample :
    computeBackoff429 (chars "abc") 2 = 15 * 1000000000
    ∧ (15 * 1000000000 : Int) ≠ 5 * 2 ^ 2 * 1000000000
    ∧ computeBackoff429 (chars "2m") 0 = 2 * 1000000
    ∧ (2 * 1000000 : Int) ≠ 2 * 60 * 1000000000 := by
  exact ⟨by decide, by decide, by decide, by decide⟩

/-- Witness for C4 (amended): header `7` at attempt 3 waits 7 s; no header
at attempt 2 waits 20 s; header `abc` at attempt 2 waits 15 s; and a
concrete 429-then-200 run records the 429 wait and succeeds. -/
theorem c4_backoff_429_witness :
    computeBackoff429 (chars "7") 3 = (digitsVal (chars "7") : Int) * 1000000000
    ∧ computeBackoff429 [] 2 = 2 ^ 2 * 5 * 1000000000
    ∧ computeBackoff429 ('a' :: chars "bc") 2 = ((2 : Int) + 1) * 5 * 1000000000
    ∧ GetWithRetryM (fun _ => some ⟨chars "tk", chars "Bearer", 3600, []⟩)
        (fun i => if i = 0 then some ⟨429, chars "2"⟩ else some ⟨200, []⟩)
        0 (chars "/test") 2 ⟨⟨chars "t0", 10000, 0, 0⟩, 0, []⟩
      = (some ⟨200, []⟩,
         ⟨⟨chars "t0", 10000, 0, 0⟩, 2,
          [.req (chars "/test") (chars "t0"), .wait429 (computeBackoff429 (chars "2") 0),
           .waitRetry (2 * 1000000000), .req (chars "/test") (chars "t0")]⟩) :=
  ⟨c4_backoff_429.1 (chars "7") 3 (by decide) (by decide) (by decide),
   c4_backoff_429.2.1 2 (by omega),
   c4_backoff_429.2.2.1 'a' (chars "bc") 2 (by decide) (by decide) (by decide) (by decide)
     (by omega),
   c4_backoff_429.2.2.2 (fun _ => some ⟨chars "tk", chars "Bearer", 3600, []⟩)
     (fun i => if i = 0 then some ⟨429, chars "2"⟩ else some ⟨200, []⟩)
     0 (chars "/test") (chars "2") ⟨chars "t0", 10000, 0, 0⟩ ⟨200, []⟩ 0
     (by decide) (by decide) rfl rfl rfl⟩

/-- Claim C8, amended.  Both `NewAuth` and `NewClient` build their HTTP
client with a 90-second timeout exactly when the configured value is 0
(unset); any nonzero configured value is used as-is — positive values as
the claim states, but a NEGATIVE value is also used as-is (producing a
negative timeout), not defaulted to 90 s as the original claim asserts. -/
theorem c8_timeout_default :
    (∀ cfg : Config, cfg.APITimeout = 0 →
      (NewAuth cfg).httpTimeout = 90 * 1000000000
      ∧ (NewClient cfg).httpTimeout = 90 * 1000000000)
    ∧ (∀ cfg : Config, cfg.APITimeout ≠ 0 → -(2 ^ 33) < cfg.APITimeout →
      cfg.APITimeout < 2 ^ 33 →
      (NewAuth cfg).httpTimeout = cfg.APITimeout * 1000000000
      ∧ (NewClient cfg).httpTimeout = cfg.APITimeout * 1000000000) := by
  constructor
  · intro cfg h0
    have h : clientTimeout cfg = 90 * 1000000000 := by
      rw [clientTimeout]
      simp only [h0, if_pos rfl]
      decide
    exact ⟨h, h⟩
  · intro cfg hne hlo hhi
    have h : clientTimeout cfg = cfg.APITimeout * 1000000000 := by
      rw [clientTimeout]
      simp only [if_neg hne]
      have e33 : (2 : Int) ^ 33 = 8589934592 := by norm_num
      apply wrap64_id
      · nlinarith
      · nlinarith
    exact ⟨h, h⟩

/-- Counterexample to C8 as stated: a configuration with `APITimeout = -5`
(possible, since the environment loader parses any integer) gives both
clients a timeout of -5 s, not the 90 s the claim asserts for values ≤ 0. -/
theorem c8_timeout_default_counterexample :
    (NewAuth ⟨[], [], [], [], [], [], [], [], [], [], -5⟩).httpTimeout = -5 * 1000000000
    ∧ (NewAuth ⟨[], [], [], [], [], [], [], [], [], [], -5⟩).httpTimeout ≠ 90 * 1000000000
    ∧ (NewClient ⟨[], [], [], [], [], [], [], [], [], [], -5⟩).httpTimeout = -5 * 1000000000
    ∧ (NewClient ⟨[], [], [], [], [], [], [], [], [], [], -5⟩).httpTimeout
        ≠ 90 * 1000000000 := by
  exact ⟨by decide, by decide, by decide, by decide⟩

/-- Witness for C8 (amended): timeout 0 defaults to 90 s; timeout 30 is
used as configured. -/
theorem c8_timeout_default_witness :
    ((NewAuth ⟨[], [], [], [], [], [], [], [], [], [], 0⟩).httpTimeout = 90 * 1000000000
      ∧ (NewClient ⟨[], [], [], [], [], [], [], [], [], [], 0⟩).httpTimeout = 90 * 1000000000)
    ∧ ((NewAuth ⟨[], [], [], [], [], [], [], [], [], [], 30⟩).httpTimeout = 30 * 1000000000
      ∧ (NewClient ⟨[], [], [], [], [], [], [], [], [], [], 30⟩).httpTimeout
          = 30 * 1000000000) :=
  ⟨c8_timeout_default.1 ⟨[], [], [], [], [], [], [], [], [], [], 0⟩ rfl,
   c8_timeout_default.2 ⟨[], [], [], [], [], [], [], [], [], [], 30⟩ (by decide) (by decide)
     (by decide)⟩
